import Mathlib

/-!
Verification development for the batch-orchestration unit
`label_studio/tasks/functions.py`: the organization recompute sweep
(`calculate_stats_all_orgs` / `redis_job_for_calculation`), the
annotation/prediction project-reference backfills, and the batched
export pipeline (`export_project`).

External collaborators (the Django ORM, the redis job runner, the
export serializer/converter) are modelled as explicit state or as
function parameters; everything retained from the source file itself
is embedded faithfully, statement order included.
-/

namespace LabelStudio

/-- A task row: primary key and owning project. -/
structure Task where
  id : Nat
  project_id : Nat
  deriving Repr, DecidableEq

/-- An annotation row: primary key, owning task, and the denormalized
project reference (nullable before the backfill has run). -/
structure Annotation where
  id : Nat
  task_id : Nat
  project_id : Option Nat
  deriving Repr, DecidableEq

/-- A prediction row: primary key, owning task, and the denormalized
project reference (nullable before the backfill has run). -/
structure Prediction where
  id : Nat
  task_id : Nat
  project_id : Option Nat
  deriving Repr, DecidableEq

/-- A project row: primary key, owning organization, title and the
last-updated stamp used by the descending updated_at ordering. -/
structure Project where
  id : Nat
  organization_id : Nat
  title : String
  updated_at : Nat
  deriving Repr, DecidableEq

/-- Modelled from the spec: lifecycle state of a MigrationStatusRecord
(`AsyncMigrationStatus.STATUS_STARTED` / `STATUS_FINISHED`, the model
class itself lives outside this unit in `core.models`). -/
inductive MigrationStatus where
  | started
  | finished
  deriving Repr, DecidableEq

/-- Modelled from the spec: one MigrationStatusRecord together with the
full sequence of states it has been saved in (status plus the optional
metadata mapping), oldest first.  The spec says metadata is a mapping
from string keys to counts. -/
structure RecordHistory where
  project_id : Option Nat
  name : String
  versions : List (MigrationStatus × Option (List (String × Nat)))
  deriving Repr, DecidableEq

/-- The database state visible to this unit. -/
structure DB where
  organizations : List Nat
  projects : List Project
  tasks : List Task
  annotations : List Annotation
  predictions : List Prediction
  deriving Repr, DecidableEq

/-- Tasks owned by one project (`Task.objects.filter(project=project)` /
`project.tasks.all()`). -/
def projectTasks (db : DB) (pid : Nat) : List Task :=
  db.tasks.filter (fun t => t.project_id == pid)

/-- The task count `project.tasks.count()`. -/
def projectTaskCount (db : DB) (pid : Nat) : Nat :=
  (projectTasks db pid).length

/-- The flat id list `Project.objects.all().values_list(id)`. -/
def projectIds (db : DB) : List Nat :=
  db.projects.map (fun p => p.id)

/-- The queryset `Project.objects.filter(organization_id=org_id)` ordered
by descending updated_at: the organization projects, most recently
updated first. -/
def orgProjects (db : DB) (org_id : Nat) : List Project :=
  List.insertionSort (fun a b => b.updated_at ≤ a.updated_at)
    (db.projects.filter (fun p => p.organization_id == org_id))

/-- The queryset `Organization.objects.order_by(-id).values_list(id)`:
all organization identifiers, descending. -/
def orgIdsDesc (db : DB) : List Nat :=
  List.insertionSort (fun a b => b ≤ a) db.organizations

/-- Modelled from the spec: the project-id an annotation's or
prediction's owning task belongs to, i.e. the join used by the ORM
filter `task__project_id=pid` (none when the task row is absent). -/
def taskProjectId (tasks : List Task) (tid : Nat) : Option Nat :=
  (tasks.find? (fun t => t.id == tid)).map (fun t => t.project_id)

/-- Modelled from the spec: `core.utils.common.batch` (not part of this
unit) partitions a collection into consecutive chunks of size `m + 1`,
the last chunk possibly shorter. -/
def batchChunks (m : Nat) : List α → List (List α)
  | [] => []
  | x :: xs => ((x :: xs).take (m + 1)) :: batchChunks m (xs.drop m)
  termination_by l => l.length
  decreasing_by simp [List.length_drop]; omega

/-- The wrapper `batch(iterable, n)`: fixed-size batching, empty for size zero
(the source only ever uses a positive size). -/
def batch (xs : List α) (n : Nat) : List (List α) :=
  match n with
  | 0 => []
  | m + 1 => batchChunks m xs

/-- The export serialization loop of `export_project`: start from an
empty accumulator and, for each batch, append the records produced by
the serializer (`ExportDataSerializer` with `many=True` yields one
record per task; the serializer itself is external, passed as `ser`). -/
def serializeBatches (ser : Task → String) (ts : List Task) (n : Nat) : List String :=
  (batch ts n).foldl (fun acc b => acc ++ b.map ser) []

/-- Modelled from the spec: the kinds of work this unit hands to the
JobRunner (`start_job_async_or_sync`, which lives in `core.redis`). -/
inductive Job where
  | recompute (org_id : Nat) (from_scratch : Bool) (migration_name : String)
  | fillAnnotationsFor (project_id : Nat)
  | fillPredictions (migration_name : String)
  deriving Repr, DecidableEq

/-- Modelled from the spec: a JobRunner submission: the unit of work
plus the queue name and timeout when the caller supplies them
(`none` means the runner's default). -/
structure Submission where
  job : Job
  queue_name : Option String
  job_timeout : Option Nat
  deriving Repr, DecidableEq

/-- The sweep `calculate_stats_all_orgs`: enumerate organization ids descending
and submit one recompute job per organization on the `critical` queue
with a 24-hour timeout; the submissions themselves are the observable
outcome (the dispatcher never waits on them). -/
def calculate_stats_all_orgs (db : DB) (from_scratch : Bool) (migration_name : String) :
    List Submission :=
  (orgIdsDesc db).map
    (fun oid => ⟨Job.recompute oid from_scratch migration_name, some "critical", some (3600 * 24)⟩)

/-- The per-project loop of `redis_job_for_calculation`: for each
project (in order) create a STARTED ledger record, call the external
counter recomputer `uc` on the project's task set, and on success save
the record as FINISHED with the processed/total metadata.  If `uc`
raises, the exception propagates: the loop stops, the current record
keeps its single STARTED version, and no further record is created.
Returns the histories of the records it touched and whether the whole
run completed. -/
def recomputeProjects (db : DB) (uc : List Task → Bool → Except Unit Nat)
    (from_scratch : Bool) (migration_name : String) :
    List Project → List RecordHistory × Bool
  | [] => ([], true)
  | p :: ps =>
    match uc (projectTasks db p.id) from_scratch with
    | Except.error _ =>
      ([⟨some p.id, migration_name, [(MigrationStatus.started, none)]⟩], false)
    | Except.ok cnt =>
      let meta := [("tasks_processed", cnt), ("total_project_tasks", projectTaskCount db p.id)]
      let rest := recomputeProjects db uc from_scratch migration_name ps
      (⟨some p.id, migration_name,
         [(MigrationStatus.started, none), (MigrationStatus.finished, some meta)]⟩ :: rest.1,
       rest.2)

/-- The worker `redis_job_for_calculation(org_id, from_scratch, migration_name)`:
run the per-project recompute loop over the organization's projects,
most recently updated first.  The external
`project.update_tasks_counters(tasks, from_scratch)` is the parameter
`uc`; it may raise, modelled by `Except`. -/
def redis_job_for_calculation (db : DB) (uc : List Task → Bool → Except Unit Nat)
    (org_id : Nat) (from_scratch : Bool) (migration_name : String) :
    List RecordHistory × Bool :=
  recomputeProjects db uc from_scratch migration_name (orgProjects db org_id)

/-- The bulk update on the annotations table, filtered by
task__project_id=pid and writing project_id=pid: every annotation whose
owning task belongs to project `pid` gets its denormalized project
reference set to `pid`; other rows are untouched. -/
def annUpdate (tasks : List Task) (pid : Nat) (anns : List Annotation) : List Annotation :=
  anns.map (fun a =>
    if taskProjectId tasks a.task_id == some pid then { a with project_id := some pid } else a)

/-- Rows whose stored project reference actually changes when
`annUpdate tasks pid` runs: matched by the filter but not already
carrying the value being written. -/
def annChangedCount (tasks : List Task) (pid : Nat) (anns : List Annotation) : Nat :=
  anns.countP (fun a =>
    taskProjectId tasks a.task_id == some pid && a.project_id != some pid)

/-- The job body `_fill_annotations_project(project_id)`: one bulk update. -/
def _fill_annotations_project (db : DB) (project_id : Nat) : DB :=
  { db with annotations := annUpdate db.tasks project_id db.annotations }

/-- The sequential execution of the per-project annotation backfill
jobs, instrumented with the total number of rows whose value changes. -/
def fillAnnsAux (tasks : List Task) : List Nat → List Annotation → List Annotation × Nat
  | [], anns => (anns, 0)
  | pid :: pids, anns =>
    let c := annChangedCount tasks pid anns
    let rest := fillAnnsAux tasks pids (annUpdate tasks pid anns)
    (rest.1, c + rest.2)

/-- The dispatcher `fill_annotations_project()`: dispatch `_fill_annotations_project`
once per project id; in the synchronous fallback the jobs run in
submission order, which is the sequential fold below. -/
def fill_annotations_project (db : DB) : DB :=
  { db with annotations := (fillAnnsAux db.tasks (projectIds db) db.annotations).1 }

/-- Rows whose stored project reference changes over one whole run of
`fill_annotations_project` on `db` (zero when the database is already
converged). -/
def annotationsRunUpdatedRows (db : DB) : Nat :=
  (fillAnnsAux db.tasks (projectIds db) db.annotations).2

/-- The submissions `fill_annotations_project` makes: one job per
project id, default queue and timeout. -/
def fill_annotations_project_submissions (db : DB) : List Submission :=
  (projectIds db).map (fun pid => ⟨Job.fillAnnotationsFor pid, none, none⟩)

/-- The bulk update
`Prediction.objects.filter(task__project_id=pid).update(project_id=pid)`. -/
def predUpdate (tasks : List Task) (pid : Nat) (preds : List Prediction) : List Prediction :=
  preds.map (fun x =>
    if taskProjectId tasks x.task_id == some pid then { x with project_id := some pid } else x)

/-- Modelled from the spec: the value a Django bulk `update` returns,
the number of rows matched by the filter. -/
def predMatchedCount (tasks : List Task) (pid : Nat) (preds : List Prediction) : Nat :=
  preds.countP (fun x => taskProjectId tasks x.task_id == some pid)

/-- The count `Prediction.objects.filter(project_id=pid).count()`. -/
def predProjectCount (pid : Nat) (preds : List Prediction) : Nat :=
  preds.countP (fun x => x.project_id == some pid)

/-- Folding the prediction bulk update over a list of project ids. -/
def predsAfter (tasks : List Task) (pids : List Nat) (preds : List Prediction) :
    List Prediction :=
  pids.foldl (fun ps pid => predUpdate tasks pid ps) preds

/-- The per-project loop of `_fill_predictions_project`: per project id
create a STARTED ledger record, run the bulk update (capturing its
matched-row count), then save the record as FINISHED with metadata
`predictions_processed` (the update's return) and
`total_project_predictions` (the post-update count of predictions whose
project reference is this project).  Returns the final prediction rows
and the record histories in processing order. -/
def fillPredsAux (tasks : List Task) (migration_name : String) :
    List Nat → List Prediction → List Prediction × List RecordHistory
  | [], preds => (preds, [])
  | pid :: pids, preds =>
    let matched := predMatchedCount tasks pid preds
    let preds' := predUpdate tasks pid preds
    let total := predProjectCount pid preds'
    let h : RecordHistory :=
      ⟨some pid, migration_name,
        [(MigrationStatus.started, none),
         (MigrationStatus.finished,
          some [("predictions_processed", matched), ("total_project_predictions", total)])]⟩
    let rest := fillPredsAux tasks migration_name pids preds'
    (rest.1, h :: rest.2)

/-- The job body `_fill_predictions_project(migration_name)`: the body of the single
dispatched prediction-backfill job. -/
def _fill_predictions_project (db : DB) (migration_name : String) :
    List Prediction × List RecordHistory :=
  fillPredsAux db.tasks migration_name (projectIds db) db.predictions

/-- The dispatcher `fill_predictions_project(migration_name)`: submits the backfill
body once, with default queue and timeout. -/
def fill_predictions_project_submissions (migration_name : String) : List Submission :=
  [⟨Job.fillPredictions migration_name, none, none⟩]

/-- Export failure modes: `Project.objects.get` raising on a missing
project, the unsupported-format assertion, and `json.loads` raising on
a malformed serializer-context string. -/
inductive ExportError where
  | projectNotFound
  | invalidFormat
  | jsonDecodeError
  deriving Repr, DecidableEq

/-- The `serializer_context` argument of `export_project`: absent, a
mapping, or a JSON string still to be parsed. -/
inductive SerCtx where
  | none
  | mapping (m : List (String × String))
  | str (s : String)
  deriving Repr, DecidableEq

/-- The local filesystem as a path-to-bytes association (bytes as
naturals); the head entry for a path is its current content. -/
def FS : Type := List (String × List Nat)

/-- Opening a path with mode `wb` and writing `content`: any previous
entry for the path is dropped and the new content installed. -/
def fsWrite (fs : FS) (path : String) (content : List Nat) : FS :=
  (path, content) :: List.filter (fun e => e.1 != path) fs

/-- Reading a path back from the modelled filesystem. -/
def fsRead (fs : FS) (path : String) : Option (List Nat) :=
  (List.find? (fun e => e.1 == path) fs).map (fun e => e.2)

/-- Modelled from the spec: Python's `str.upper()` (stdlib), as
character-wise upper-casing. -/
def strUpper (s : String) : String := String.mk (s.data.map Char.toUpper)

/-- Python's `os.path.join(a, b)` for one component: an absolute second
component wins; otherwise the parts are glued with exactly one
separator. -/
def osPathJoin (a b : String) : String :=
  if b.startsWith "/" then b
  else if a.endsWith "/" || a == "" then a ++ b
  else a ++ "/" ++ b

/-- The external collaborators of `export_project`, as functions:
`DataExport.get_export_formats` (names only), `json.loads` (None on a
parse failure), `ExportMixin._get_export_serializer_option`, the
per-task record of `ExportDataSerializer`, and
`DataExport.generate_export_file` returning (byte stream, content type,
suggested filename); plus `settings.CONVERTER_DOWNLOAD_RESOURCES` and
`os.path.isdir`. -/
structure ExportEnv where
  get_export_formats : Project → List String
  json_loads : String → Option (List (String × String))
  get_serializer_option : Option (List (String × String)) → List (String × String)
  serializeTask : List (String × String) → Task → String
  generate_export_file :
    Project → List String → String → Bool → List (String × String) →
      List Nat × String × String
  download_resources : Bool
  isdir : String → Bool

/-- The serializer-context step of `export_project`: a string is fed to
`json.loads` (raising on malformed input), anything else is passed
through unchanged. -/
def parseSerCtx (env : ExportEnv) : SerCtx → Except ExportError (Option (List (String × String)))
  | SerCtx.none => Except.ok Option.none
  | SerCtx.mapping m => Except.ok (some m)
  | SerCtx.str s =>
    match env.json_loads s with
    | Option.none => Except.error ExportError.jsonDecodeError
    | some m => Except.ok (some m)

/-- The pipeline `export_project(project_id, export_format, path, serializer_context)`:
resolve the project; upper-case the format and assert it is supported;
parse the serializer context; serialize the project's tasks in batches
of 1000; convert via the external converter; resolve the destination
(join with the suggested filename when `path` is an existing directory,
else `path` verbatim); write the byte stream there.  Returns the
result (final path or the error raised) paired with the filesystem
after the call. -/
def export_project (env : ExportEnv) (db : DB) (fs0 : FS) (project_id : Nat)
    (export_format : String) (path : String) (serializer_context : SerCtx) :
    Except ExportError String × FS :=
  match db.projects.find? (fun p => p.id == project_id) with
  | Option.none => (Except.error ExportError.projectNotFound, fs0)
  | some project =>
    let fmt := strUpper export_format
    if fmt ∈ env.get_export_formats project then
      let task_ids := db.tasks.filter (fun t => t.project_id == project.id)
      match parseSerCtx env serializer_context with
      | Except.error e => (Except.error e, fs0)
      | Except.ok ctx =>
        let opts := env.get_serializer_option ctx
        let tasks := serializeBatches (env.serializeTask opts) task_ids 1000
        let res := env.generate_export_file project tasks fmt env.download_resources []
        let filepath := if env.isdir path then osPathJoin path res.2.2 else path
        (Except.ok filepath, fsWrite fs0 filepath res.1)
    else (Except.error ExportError.invalidFormat, fs0)

/-- What the converter receives and returns on the successful path of
`export_project` for project `p`, upper-cased format `fmt` and parsed
serializer context `m`: the batched serialization of the project's
tasks fed through `generate_export_file`. -/
def exportConverterResult (env : ExportEnv) (db : DB) (p : Project) (fmt : String)
    (m : Option (List (String × String))) : List Nat × String × String :=
  env.generate_export_file p
    (serializeBatches (env.serializeTask (env.get_serializer_option m))
      (db.tasks.filter (fun t => t.project_id == p.id)) 1000)
    fmt env.download_resources []

/-- The destination path `export_project` resolves: the directory
joined with the converter-suggested filename when `path` is an
existing directory, `path` verbatim otherwise. -/
def exportResolvedPath (env : ExportEnv) (db : DB) (p : Project) (fmt path : String)
    (m : Option (List (String × String))) : String :=
  if env.isdir path then osPathJoin path (exportConverterResult env db p fmt m).2.2 else path

/-- An annotation collection is converged for project `pid`: every row
the backfill filter would match already carries the value the backfill
writes. -/
def AnnSynced (tasks : List Task) (pid : Nat) (anns : List Annotation) : Prop :=
  ∀ a ∈ anns, taskProjectId tasks a.task_id = some pid → a.project_id = some pid

instance : IsTotal Nat (fun a b => b ≤ a) := ⟨fun a b => le_total b a⟩

instance : IsTrans Nat (fun a b => b ≤ a) := ⟨fun _ _ _ h h' => le_trans h' h⟩

/-- A two-project sample database: organization 1 owns project 1 (two
tasks, recently updated) and project 2 (no tasks, updated earlier). -/
def wDB : DB :=
  ⟨[1], [⟨1, 1, "p", 10⟩, ⟨2, 1, "q", 5⟩], [⟨1, 1⟩, ⟨2, 1⟩],
    [⟨1, 1, Option.none⟩], [⟨1, 1, Option.none⟩]⟩

/-- A sample counter recomputer that processes every task it is given. -/
def ucOk : List Task → Bool → Except Unit Nat := fun ts _ => Except.ok ts.length

/-- A sample counter recomputer that raises on a project with no tasks. -/
def ucFail : List Task → Bool → Except Unit Nat :=
  fun ts _ => if ts.length == 0 then Except.error () else Except.ok ts.length

/-- A sample counter recomputer that always reports five processed
tasks, whatever it is given. -/
def ucBig : List Task → Bool → Except Unit Nat := fun _ _ => Except.ok 5

/-- A sample export environment: two supported formats, a parser that
accepts only the empty JSON object, a serializer rendering the task id,
a converter suggesting the filename proj.json, and a filesystem on
which exactly /tmp is a directory. -/
def wEnv : ExportEnv where
  get_export_formats := fun _ => ["JSON", "CSV"]
  json_loads := fun s => if s == "obj" then some [] else Option.none
  get_serializer_option := fun _ => []
  serializeTask := fun _ t => toString t.id
  generate_export_file := fun _ tasks _ _ _ =>
    (tasks.map String.length, "application/json", "proj.json")
  download_resources := false
  isdir := fun s => s == "/tmp"

end LabelStudio

namespace LabelStudio

theorem batchChunks_flatten (m : Nat) : ∀ xs : List α, (batchChunks m xs).flatten = xs
  | [] => by simp [batchChunks]
  | x :: xs => by
    rw [batchChunks]
    have ih := batchChunks_flatten m (xs.drop m)
    simp only [List.flatten_cons, ih]
    have : xs.drop m = (x :: xs).drop (m + 1) := rfl
    rw [this, List.take_append_drop]
  termination_by xs => xs.length
  decreasing_by simp [List.length_drop]; omega

theorem batch_flatten (n : Nat) (hn : 0 < n) (xs : List α) : (batch xs n).flatten = xs := by
  match n, hn with
  | m + 1, _ => exact batchChunks_flatten m xs

theorem foldl_append_eq_flatten (g : β → List γ) (l : List β) (a : List γ) :
    l.foldl (fun acc b => acc ++ g b) a = a ++ (l.map g).flatten := by
  induction l generalizing a with
  | nil => simp
  | cons b l ih => simp [List.foldl_cons, ih, List.append_assoc]

theorem serializeBatches_eq_map (ser : Task → String) (ts : List Task) (n : Nat)
    (hn : 0 < n) : serializeBatches ser ts n = ts.map ser := by
  unfold serializeBatches
  rw [foldl_append_eq_flatten, List.nil_append]
  have : (batch ts n).map (fun b => b.map ser) = (batch ts n).map (List.map ser) := rfl
  rw [this, ← List.map_flatten, batch_flatten n hn]

/-- C1: for every project task collection and every (external, one
record per task) serializer, the serialized sequence `export_project`
feeds into the format converter has exactly as many records as there
are tasks, independent of the internal batch size: batching at 1000
yields the very same sequence as batching at 1, namely one record per
task in order. -/
theorem c1_export_serialized_count (ser : Task → String) (ts : List Task) :
    (serializeBatches ser ts 1000).length = ts.length
    ∧ serializeBatches ser ts 1000 = serializeBatches ser ts 1
    ∧ serializeBatches ser ts 1000 = ts.map ser := by
  have h1000 := serializeBatches_eq_map ser ts 1000 (by omega)
  have h1 := serializeBatches_eq_map ser ts 1 (by omega)
  exact ⟨by rw [h1000, List.length_map], by rw [h1000, h1], h1000⟩

/-- C8: `calculate_stats_all_orgs` enumerates all organization ids in
descending order and submits exactly one unit of work per organization
(so the number of submissions equals the number of organizations),
each carrying the organization id, the from-scratch flag and the run
name, on the `critical` queue with a 24-hour timeout; the submissions
are returned without waiting on any of them. -/
theorem c8_sweep_submissions (db : DB) (from_scratch : Bool) (migration_name : String) :
    (calculate_stats_all_orgs db from_scratch migration_name).length = db.organizations.length
    ∧ List.Sorted (fun a b => b ≤ a) (orgIdsDesc db)
    ∧ List.Perm (orgIdsDesc db) db.organizations
    ∧ (calculate_stats_all_orgs db from_scratch migration_name).map Submission.job
        = (orgIdsDesc db).map (fun oid => Job.recompute oid from_scratch migration_name)
    ∧ ∀ s ∈ calculate_stats_all_orgs db from_scratch migration_name,
        s.queue_name = some "critical" ∧ s.job_timeout = some 86400 := by
  refine ⟨?_, ?_, ?_, ?_, ?_⟩
  · rw [calculate_stats_all_orgs, List.length_map, orgIdsDesc,
      (List.perm_insertionSort _ _).length_eq]
  · exact List.sorted_insertionSort _ _
  · exact List.perm_insertionSort _ _
  · rw [calculate_stats_all_orgs, List.map_map]
    rfl
  · intro s hs
    rw [calculate_stats_all_orgs, List.mem_map] at hs
    obtain ⟨oid, _, rfl⟩ := hs
    exact ⟨rfl, rfl⟩

theorem recomputeProjects_ok_shape (db : DB) (uc : List Task → Bool → Except Unit Nat)
    (fs : Bool) (mn : String) :
    ∀ ps : List Project, (recomputeProjects db uc fs mn ps).2 = true →
      ∀ h ∈ (recomputeProjects db uc fs mn ps).1,
        ∃ m, h.versions
          = [(MigrationStatus.started, Option.none), (MigrationStatus.finished, some m)] := by
  intro ps
  induction ps with
  | nil => intro _ h hh; simp [recomputeProjects] at hh
  | cons p ps ih =>
    intro hok h hh
    rw [recomputeProjects] at hok hh
    cases e : uc (projectTasks db p.id) fs with
    | error u => rw [e] at hok; simp at hok
    | ok cnt =>
      rw [e] at hh
      simp only [List.mem_cons] at hh
      rcases hh with rfl | hh
      · exact ⟨_, rfl⟩
      · rw [e] at hok
        exact ih hok h hh

theorem recomputeProjects_fail (db : DB) (uc : List Task → Bool → Except Unit Nat)
    (fs : Bool) (mn : String) :
    ∀ (ps : List Project) (k : Nat) (pk : Project),
      ps[k]? = some pk →
      (∀ p ∈ ps.take k, ∃ c, uc (projectTasks db p.id) fs = Except.ok c) →
      uc (projectTasks db pk.id) fs = Except.error () →
      (recomputeProjects db uc fs mn ps).2 = false
      ∧ (recomputeProjects db uc fs mn ps).1.length = k + 1
      ∧ (recomputeProjects db uc fs mn ps).1[k]?
          = some ⟨some pk.id, mn, [(MigrationStatus.started, Option.none)]⟩
      ∧ ∀ h ∈ (recomputeProjects db uc fs mn ps).1.take k,
          ∃ m, h.versions
            = [(MigrationStatus.started, Option.none), (MigrationStatus.finished, some m)] := by
  intro ps
  induction ps with
  | nil => intro k pk hk; simp at hk
  | cons p ps ih =>
    intro k pk hk hpre hfail
    cases k with
    | zero =>
      rw [List.getElem?_cons_zero] at hk
      injection hk with hk
      subst hk
      rw [recomputeProjects, hfail]
      exact ⟨rfl, rfl, rfl, by intro h hh; simp at hh⟩
    | succ k =>
      obtain ⟨c, hc⟩ := hpre p (by simp [List.take_succ_cons])
      rw [List.getElem?_cons_succ] at hk
      have hpre' : ∀ q ∈ ps.take k, ∃ c, uc (projectTasks db q.id) fs = Except.ok c := by
        intro q hq
        exact hpre q (by simp [List.take_succ_cons, hq])
      obtain ⟨h1, h2, h3, h4⟩ := ih k pk hk hpre' hfail
      rw [recomputeProjects, hc]
      refine ⟨h1, ?_, ?_, ?_⟩
      · simpa using h2
      · simpa using h3
      · intro h hh
        rw [List.take_succ_cons, List.mem_cons] at hh
        rcases hh with rfl | hh
        · exact ⟨_, rfl⟩
        · exact h4 h hh

theorem recomputeProjects_processed_le (db : DB) (uc : List Task → Bool → Except Unit Nat)
    (fs : Bool) (mn : String)
    (hb : ∀ ts c, uc ts fs = Except.ok c → c ≤ ts.length) :
    ∀ ps : List Project, ∀ h ∈ (recomputeProjects db uc fs mn ps).1, ∀ c t,
      (MigrationStatus.finished, some [("tasks_processed", c), ("total_project_tasks", t)])
          ∈ h.versions →
      c ≤ t := by
  intro ps
  induction ps with
  | nil => intro h hh; simp [recomputeProjects] at hh
  | cons p ps ih =>
    intro h hh c t hv
    rw [recomputeProjects] at hh
    cases e : uc (projectTasks db p.id) fs with
    | error u =>
      rw [e] at hh
      simp only [List.mem_singleton] at hh
      subst hh
      simp at hv
    | ok cnt =>
      rw [e] at hh
      simp only [List.mem_cons] at hh
      rcases hh with rfl | hh
      · simp only [List.mem_cons, List.not_mem_nil, or_false, Prod.mk.injEq,
          Option.some.injEq, List.cons.injEq] at hv
        rcases hv with ⟨hv1, _⟩ | ⟨_, ⟨⟨_, hc⟩, ⟨_, ht⟩, _⟩⟩
        · exact MigrationStatus.noConfusion hv1
        · subst hc
          subst ht
          exact hb _ _ e
      · exact ih h hh c t hv

theorem fillPredsAux_shape (tasks : List Task) (mn : String) :
    ∀ (pids : List Nat) (preds : List Prediction),
      ∀ h ∈ (fillPredsAux tasks mn pids preds).2,
        ∃ m, h.versions
          = [(MigrationStatus.started, Option.none), (MigrationStatus.finished, some m)] := by
  intro pids
  induction pids with
  | nil => intro preds h hh; simp [fillPredsAux] at hh
  | cons pid pids ih =>
    intro preds h hh
    rw [fillPredsAux] at hh
    simp only [List.mem_cons] at hh
    rcases hh with rfl | hh
    · exact ⟨_, rfl⟩
    · exact ih _ h hh

/-- C4: every ledger record the recompute worker (on a run that
completes) or the prediction backfill creates has exactly the two-step
history: saved first as STARTED with no metadata, then exactly once
more as FINISHED with metadata populated, and never touched again —
so metadata is absent whenever the status is STARTED and the STARTED
version precedes the FINISHED one. -/
theorem c4_record_lifecycle (db : DB) (uc : List Task → Bool → Except Unit Nat)
    (org_id : Nat) (fs : Bool) (mn pn : String)
    (hok : (redis_job_for_calculation db uc org_id fs mn).2 = true) :
    (∀ h ∈ (redis_job_for_calculation db uc org_id fs mn).1,
      ∃ m, h.versions
        = [(MigrationStatus.started, Option.none), (MigrationStatus.finished, some m)])
    ∧ ∀ h ∈ (_fill_predictions_project db pn).2,
        ∃ m, h.versions
          = [(MigrationStatus.started, Option.none), (MigrationStatus.finished, some m)] :=
  ⟨recomputeProjects_ok_shape db uc fs mn (orgProjects db org_id) hok,
   fillPredsAux_shape db.tasks pn (projectIds db) db.predictions⟩

/-- C4 witness: on the sample database with the total recomputer the
recompute run completes, and every record of both workers has the
two-step STARTED-then-FINISHED history. -/
theorem c4_record_lifecycle_witness :
    (redis_job_for_calculation wDB ucOk 1 false "m").2 = true
    ∧ ((∀ h ∈ (redis_job_for_calculation wDB ucOk 1 false "m").1,
        ∃ m, h.versions
          = [(MigrationStatus.started, Option.none), (MigrationStatus.finished, some m)])
      ∧ ∀ h ∈ (_fill_predictions_project wDB "n").2,
          ∃ m, h.versions
            = [(MigrationStatus.started, Option.none), (MigrationStatus.finished, some m)]) :=
  ⟨by decide, c4_record_lifecycle wDB ucOk 1 false "m" "n" (by decide)⟩

/-- C5: if the counter recomputation raises at the k-th project of the
organization (all earlier ones succeeding), the worker catches nothing:
the run aborts with exactly k+1 ledger records, the k-th record keeps
its single STARTED version forever (no metadata, no deletion, no
transition), and no record at all is created for any later project;
the earlier k records are already FINISHED. -/
theorem c5_failure_leaves_started (db : DB) (uc : List Task → Bool → Except Unit Nat)
    (org_id : Nat) (fs : Bool) (mn : String) (k : Nat) (pk : Project)
    (hk : (orgProjects db org_id)[k]? = some pk)
    (hpre : ∀ p ∈ (orgProjects db org_id).take k,
      ∃ c, uc (projectTasks db p.id) fs = Except.ok c)
    (hfail : uc (projectTasks db pk.id) fs = Except.error ()) :
    (redis_job_for_calculation db uc org_id fs mn).2 = false
    ∧ (redis_job_for_calculation db uc org_id fs mn).1.length = k + 1
    ∧ (redis_job_for_calculation db uc org_id fs mn).1[k]?
        = some ⟨some pk.id, mn, [(MigrationStatus.started, Option.none)]⟩
    ∧ ∀ h ∈ (redis_job_for_calculation db uc org_id fs mn).1.take k,
        ∃ m, h.versions
          = [(MigrationStatus.started, Option.none), (MigrationStatus.finished, some m)] :=
  recomputeProjects_fail db uc fs mn (orgProjects db org_id) k pk hk hpre hfail

/-- C5 witness: on the sample database the recomputer fails at the
second project (the one with no tasks): the run stops with two records,
the second permanently STARTED, the first FINISHED. -/
theorem c5_failure_leaves_started_witness :
    (orgProjects wDB 1)[1]? = some ⟨2, 1, "q", 5⟩
    ∧ (∀ p ∈ (orgProjects wDB 1).take 1,
        ∃ c, ucFail (projectTasks wDB p.id) false = Except.ok c)
    ∧ ucFail (projectTasks wDB 2) false = Except.error ()
    ∧ ((redis_job_for_calculation wDB ucFail 1 false "m").2 = false
      ∧ (redis_job_for_calculation wDB ucFail 1 false "m").1.length = 1 + 1
      ∧ (redis_job_for_calculation wDB ucFail 1 false "m").1[1]?
          = some ⟨some 2, "m", [(MigrationStatus.started, Option.none)]⟩
      ∧ ∀ h ∈ (redis_job_for_calculation wDB ucFail 1 false "m").1.take 1,
          ∃ m, h.versions
            = [(MigrationStatus.started, Option.none), (MigrationStatus.finished, some m)]) := by
  have hk : (orgProjects wDB 1)[1]? = some ⟨2, 1, "q", 5⟩ := by decide
  have hpre : ∀ p ∈ (orgProjects wDB 1).take 1,
      ∃ c, ucFail (projectTasks wDB p.id) false = Except.ok c := by
    have ht : (orgProjects wDB 1).take 1 = [⟨1, 1, "p", 10⟩] := by decide
    rw [ht]
    intro p hp
    rw [List.mem_singleton] at hp
    subst hp
    exact ⟨2, rfl⟩
  have hfail : ucFail (projectTasks wDB 2) false = Except.error () := rfl
  exact ⟨hk, hpre, hfail,
    c5_failure_leaves_started wDB ucFail 1 false "m" 1 ⟨2, 1, "q", 5⟩ hk hpre hfail⟩

/-- C7 counterexample: the worker stores whatever the external
recomputer returns without any clamp, so with a recomputer reporting 5
processed tasks on a project whose task count is 0 it produces a
FINISHED ledger record whose processed count exceeds its total — the
claim is false for arbitrary recomputer return values. -/
theorem c7_processed_le_total_cex :
    (∃ h ∈ (redis_job_for_calculation wDB ucBig 1 false "m").1,
      (MigrationStatus.finished,
        some [("tasks_processed", 5), ("total_project_tasks", 0)]) ∈ h.versions)
    ∧ ¬ (5 ≤ 0) := by
  constructor
  · refine ⟨⟨some 2, "m",
      [(MigrationStatus.started, Option.none),
       (MigrationStatus.finished,
        some [("tasks_processed", 5), ("total_project_tasks", 0)])]⟩, ?_, ?_⟩
    · show _ ∈ (recomputeProjects wDB ucBig false "m" (orgProjects wDB 1)).1
      have : orgProjects wDB 1 = [⟨1, 1, "p", 10⟩, ⟨2, 1, "q", 5⟩] := rfl
      rw [this]
      simp [recomputeProjects, ucBig, projectTaskCount, projectTasks, wDB]
    · simp
  · omega

/-- C7 (amended): for every FINISHED ledger record produced by the
recompute worker, the processed count in the metadata is at most the
total-task count in the same metadata, provided the external counter
recomputer never reports more processed tasks than it was given. -/
theorem c7_processed_le_total_amended (db : DB) (uc : List Task → Bool → Except Unit Nat)
    (org_id : Nat) (fs : Bool) (mn : String)
    (hb : ∀ ts c, uc ts fs = Except.ok c → c ≤ ts.length) :
    ∀ h ∈ (redis_job_for_calculation db uc org_id fs mn).1, ∀ c t,
      (MigrationStatus.finished, some [("tasks_processed", c), ("total_project_tasks", t)])
          ∈ h.versions →
      c ≤ t :=
  recomputeProjects_processed_le db uc fs mn hb (orgProjects db org_id)

/-- C7 witness: the bound hypothesis holds for the sample recomputer
that processes exactly the tasks it is given, and then every FINISHED
record on the sample database satisfies processed ≤ total. -/
theorem c7_processed_le_total_amended_witness :
    (∀ ts c, ucOk ts false = Except.ok c → c ≤ ts.length)
    ∧ ∀ h ∈ (redis_job_for_calculation wDB ucOk 1 false "m").1, ∀ c t,
        (MigrationStatus.finished, some [("tasks_processed", c), ("total_project_tasks", t)])
            ∈ h.versions →
        c ≤ t := by
  have hb : ∀ ts c, ucOk ts false = Except.ok c → c ≤ ts.length := by
    intro ts c h
    injection h with h
    omega
  exact ⟨hb, c7_processed_le_total_amended wDB ucOk 1 false "m" hb⟩

theorem fsRead_fsWrite (fs : FS) (p : String) (c : List Nat) :
    fsRead (fsWrite fs p c) p = some c := by
  simp [fsRead, fsWrite]

theorem export_project_invalid_format (env : ExportEnv) (db : DB) (fs0 : FS) (pid : Nat)
    (fmtStr path : String) (ctx : SerCtx) (p : Project)
    (hp : db.projects.find? (fun q => q.id == pid) = some p)
    (hns : strUpper fmtStr ∉ env.get_export_formats p) :
    export_project env db fs0 pid fmtStr path ctx
      = (Except.error ExportError.invalidFormat, fs0) := by
  unfold export_project
  rw [hp]
  simp only [if_neg hns]

theorem export_project_bad_json (env : ExportEnv) (db : DB) (fs0 : FS) (pid : Nat)
    (fmtStr path s : String) (p : Project)
    (hp : db.projects.find? (fun q => q.id == pid) = some p)
    (hbad : env.json_loads s = Option.none) :
    export_project env db fs0 pid fmtStr path (SerCtx.str s)
      = (Except.error
          (if strUpper fmtStr ∈ env.get_export_formats p then ExportError.jsonDecodeError
           else ExportError.invalidFormat),
         fs0) := by
  unfold export_project
  rw [hp]
  by_cases hf : strUpper fmtStr ∈ env.get_export_formats p
  · have hctx : parseSerCtx env (SerCtx.str s) = Except.error ExportError.jsonDecodeError := by
      simp only [parseSerCtx, hbad]
    simp only [if_pos hf, hctx]
  · simp only [if_neg hf]

theorem export_project_success (env : ExportEnv) (db : DB) (fs0 : FS) (pid : Nat)
    (fmtStr path : String) (ctx : SerCtx) (p : Project) (m : Option (List (String × String)))
    (hp : db.projects.find? (fun q => q.id == pid) = some p)
    (hs : strUpper fmtStr ∈ env.get_export_formats p)
    (hctx : parseSerCtx env ctx = Except.ok m) :
    export_project env db fs0 pid fmtStr path ctx
      = (Except.ok (exportResolvedPath env db p (strUpper fmtStr) path m),
         fsWrite fs0 (exportResolvedPath env db p (strUpper fmtStr) path m)
           (exportConverterResult env db p (strUpper fmtStr) m).1) := by
  unfold export_project
  rw [hp]
  simp only [if_pos hs, hctx]
  rfl

/-- C2: for every existing project and every format whose upper-cased
form is not among the project's supported export formats,
`export_project` raises InvalidFormat, leaves the filesystem exactly as
it was, and does so before reading or serializing any task data: the
outcome is unchanged under arbitrary replacement of the task table and
of the serializer. -/
theorem c2_invalid_format_validation (env : ExportEnv) (db : DB) (fs0 : FS) (pid : Nat)
    (fmtStr path : String) (ctx : SerCtx) (p : Project)
    (hp : db.projects.find? (fun q => q.id == pid) = some p)
    (hns : strUpper fmtStr ∉ env.get_export_formats p) :
    export_project env db fs0 pid fmtStr path ctx
      = (Except.error ExportError.invalidFormat, fs0)
    ∧ ∀ (tasks' : List Task) (ser' : List (String × String) → Task → String),
        export_project { env with serializeTask := ser' } { db with tasks := tasks' }
            fs0 pid fmtStr path ctx
          = (Except.error ExportError.invalidFormat, fs0) := by
  refine ⟨export_project_invalid_format env db fs0 pid fmtStr path ctx p hp hns, ?_⟩
  intro tasks' ser'
  exact export_project_invalid_format _ _ fs0 pid fmtStr path ctx p hp hns

/-- C2 witness: exporting the sample project in format xml (upper-cased
XML, unsupported) fails with InvalidFormat on an empty filesystem that
stays empty, for the original and for arbitrarily replaced task data. -/
theorem c2_invalid_format_validation_witness :
    wDB.projects.find? (fun q => q.id == 1) = some ⟨1, 1, "p", 10⟩
    ∧ strUpper "xml" ∉ wEnv.get_export_formats ⟨1, 1, "p", 10⟩
    ∧ (export_project wEnv wDB [] 1 "xml" "/tmp" SerCtx.none
        = (Except.error ExportError.invalidFormat, [])
      ∧ ∀ (tasks' : List Task) (ser' : List (String × String) → Task → String),
          export_project { wEnv with serializeTask := ser' } { wDB with tasks := tasks' }
              [] 1 "xml" "/tmp" SerCtx.none
            = (Except.error ExportError.invalidFormat, [])) :=
  ⟨rfl, by decide,
   c2_invalid_format_validation wEnv wDB [] 1 "xml" "/tmp" SerCtx.none ⟨1, 1, "p", 10⟩
     rfl (by decide)⟩

/-- C6: whenever export reaches the write step, the returned path is
the destination directory joined with the converter-suggested filename
when the destination names an existing directory, and the destination
verbatim otherwise; the byte stream is written there, replacing any
previous content at that path. -/
theorem c6_destination_path (env : ExportEnv) (db : DB) (fs0 : FS) (pid : Nat)
    (fmtStr path : String) (ctx : SerCtx) (p : Project) (m : Option (List (String × String)))
    (hp : db.projects.find? (fun q => q.id == pid) = some p)
    (hs : strUpper fmtStr ∈ env.get_export_formats p)
    (hctx : parseSerCtx env ctx = Except.ok m) :
    export_project env db fs0 pid fmtStr path ctx
      = (Except.ok (exportResolvedPath env db p (strUpper fmtStr) path m),
         fsWrite fs0 (exportResolvedPath env db p (strUpper fmtStr) path m)
           (exportConverterResult env db p (strUpper fmtStr) m).1)
    ∧ (env.isdir path = true →
        exportResolvedPath env db p (strUpper fmtStr) path m
          = osPathJoin path (exportConverterResult env db p (strUpper fmtStr) m).2.2)
    ∧ (env.isdir path = false → exportResolvedPath env db p (strUpper fmtStr) path m = path)
    ∧ fsRead (export_project env db fs0 pid fmtStr path ctx).2
        (exportResolvedPath env db p (strUpper fmtStr) path m)
        = some (exportConverterResult env db p (strUpper fmtStr) m).1 := by
  have hmain := export_project_success env db fs0 pid fmtStr path ctx p m hp hs hctx
  refine ⟨hmain, ?_, ?_, ?_⟩
  · intro hd
    rw [exportResolvedPath, if_pos hd]
  · intro hd
    rw [exportResolvedPath, hd]
    simp
  · rw [hmain]
    exact fsRead_fsWrite fs0 _ _

/-- C6 witness: exporting the sample project as json to the existing
directory /tmp returns /tmp joined with the suggested filename
proj.json and the stream is readable back from that path; the
hypotheses hold concretely. -/
theorem c6_destination_path_witness :
    wDB.projects.find? (fun q => q.id == 1) = some ⟨1, 1, "p", 10⟩
    ∧ strUpper "json" ∈ wEnv.get_export_formats ⟨1, 1, "p", 10⟩
    ∧ parseSerCtx wEnv SerCtx.none = Except.ok Option.none
    ∧ (export_project wEnv wDB [] 1 "json" "/tmp" SerCtx.none
        = (Except.ok (exportResolvedPath wEnv wDB ⟨1, 1, "p", 10⟩ (strUpper "json") "/tmp" Option.none),
           fsWrite [] (exportResolvedPath wEnv wDB ⟨1, 1, "p", 10⟩ (strUpper "json") "/tmp" Option.none)
             (exportConverterResult wEnv wDB ⟨1, 1, "p", 10⟩ (strUpper "json") Option.none).1)
      ∧ (wEnv.isdir "/tmp" = true →
          exportResolvedPath wEnv wDB ⟨1, 1, "p", 10⟩ (strUpper "json") "/tmp" Option.none
            = osPathJoin "/tmp"
                (exportConverterResult wEnv wDB ⟨1, 1, "p", 10⟩ (strUpper "json") Option.none).2.2)
      ∧ (wEnv.isdir "/tmp" = false →
          exportResolvedPath wEnv wDB ⟨1, 1, "p", 10⟩ (strUpper "json") "/tmp" Option.none = "/tmp")
      ∧ fsRead (export_project wEnv wDB [] 1 "json" "/tmp" SerCtx.none).2
          (exportResolvedPath wEnv wDB ⟨1, 1, "p", 10⟩ (strUpper "json") "/tmp" Option.none)
          = some (exportConverterResult wEnv wDB ⟨1, 1, "p", 10⟩ (strUpper "json") Option.none).1) :=
  ⟨rfl, by decide, rfl,
   c6_destination_path wEnv wDB [] 1 "json" "/tmp" SerCtx.none ⟨1, 1, "p", 10⟩ Option.none
     rfl (by decide) rfl⟩

/-- C10: a string serializer context is parsed as JSON before any
serialization; when the string is malformed, `export_project` raises
the JSON decode error — after format validation (an unsupported format
still wins) — with no filesystem write and no dependence on the task
table or the serializer. -/
theorem c10_json_context_parse (env : ExportEnv) (db : DB) (fs0 : FS) (pid : Nat)
    (fmtStr path s : String) (p : Project)
    (hp : db.projects.find? (fun q => q.id == pid) = some p)
    (hbad : env.json_loads s = Option.none) :
    export_project env db fs0 pid fmtStr path (SerCtx.str s)
      = (Except.error
          (if strUpper fmtStr ∈ env.get_export_formats p then ExportError.jsonDecodeError
           else ExportError.invalidFormat),
         fs0)
    ∧ ∀ (tasks' : List Task) (ser' : List (String × String) → Task → String),
        export_project { env with serializeTask := ser' } { db with tasks := tasks' }
            fs0 pid fmtStr path (SerCtx.str s)
          = (Except.error
              (if strUpper fmtStr ∈ env.get_export_formats p then ExportError.jsonDecodeError
               else ExportError.invalidFormat),
             fs0) := by
  refine ⟨export_project_bad_json env db fs0 pid fmtStr path s p hp hbad, ?_⟩
  intro tasks' ser'
  exact export_project_bad_json _ _ fs0 pid fmtStr path s p hp hbad

/-- C10 witness: with the supported format json and the malformed
context string "notjson" the export fails with the JSON decode error
and the empty filesystem is untouched. -/
theorem c10_json_context_parse_witness :
    wDB.projects.find? (fun q => q.id == 1) = some ⟨1, 1, "p", 10⟩
    ∧ wEnv.json_loads "notjson" = Option.none
    ∧ (export_project wEnv wDB [] 1 "json" "/tmp" (SerCtx.str "notjson")
        = (Except.error
            (if strUpper "json" ∈ wEnv.get_export_formats ⟨1, 1, "p", 10⟩
             then ExportError.jsonDecodeError else ExportError.invalidFormat),
           [])
      ∧ ∀ (tasks' : List Task) (ser' : List (String × String) → Task → String),
          export_project { wEnv with serializeTask := ser' } { wDB with tasks := tasks' }
              [] 1 "json" "/tmp" (SerCtx.str "notjson")
            = (Except.error
                (if strUpper "json" ∈ wEnv.get_export_formats ⟨1, 1, "p", 10⟩
                 then ExportError.jsonDecodeError else ExportError.invalidFormat),
               [])) :=
  ⟨rfl, rfl,
   c10_json_context_parse wEnv wDB [] 1 "json" "/tmp" "notjson" ⟨1, 1, "p", 10⟩ rfl rfl⟩

theorem annUpdate_synced (tasks : List Task) (pid : Nat) (anns : List Annotation) :
    AnnSynced tasks pid (annUpdate tasks pid anns) := by
  intro a ha hta
  rw [annUpdate, List.mem_map] at ha
  obtain ⟨b, hb, rfl⟩ := ha
  cases hc : (taskProjectId tasks b.task_id == some pid) with
  | true => simp [hc]
  | false =>
    simp only [hc, Bool.false_eq_true, if_false] at hta ⊢
    rw [beq_eq_false_iff_ne] at hc
    exact absurd hta hc

theorem annUpdate_preserves (tasks : List Task) (pid pid' : Nat) (anns : List Annotation)
    (h : AnnSynced tasks pid anns) : AnnSynced tasks pid (annUpdate tasks pid' anns) := by
  intro a ha hta
  rw [annUpdate, List.mem_map] at ha
  obtain ⟨b, hb, rfl⟩ := ha
  cases hc : (taskProjectId tasks b.task_id == some pid') with
  | false =>
    simp only [hc, Bool.false_eq_true, if_false] at hta ⊢
    exact h b hb hta
  | true =>
    simp only [hc, if_true] at hta ⊢
    rw [beq_iff_eq] at hc
    exact hc.symm.trans hta

theorem annUpdate_id (tasks : List Task) (pid : Nat) (anns : List Annotation)
    (h : AnnSynced tasks pid anns) : annUpdate tasks pid anns = anns := by
  rw [annUpdate]
  conv_rhs => rw [← List.map_id anns]
  apply List.map_congr_left
  intro a ha
  cases hc : (taskProjectId tasks a.task_id == some pid) with
  | false => simp [hc]
  | true =>
    have hpr := h a ha (beq_iff_eq.mp hc)
    simp only [hc, if_true, id]
    cases a
    simp_all

theorem annChangedCount_zero (tasks : List Task) (pid : Nat) (anns : List Annotation)
    (h : AnnSynced tasks pid anns) : annChangedCount tasks pid anns = 0 := by
  rw [annChangedCount, List.countP_eq_zero]
  intro a ha
  cases hc : (taskProjectId tasks a.task_id == some pid) with
  | false => simp [hc]
  | true =>
    have hpr := h a ha (beq_iff_eq.mp hc)
    simp [hc, hpr]

theorem fillAnnsAux_preserves (tasks : List Task) (pid : Nat) :
    ∀ (pids : List Nat) (anns : List Annotation), AnnSynced tasks pid anns →
      AnnSynced tasks pid (fillAnnsAux tasks pids anns).1 := by
  intro pids
  induction pids with
  | nil => intro anns h; exact h
  | cons q pids ih =>
    intro anns h
    show AnnSynced tasks pid (fillAnnsAux tasks pids (annUpdate tasks q anns)).1
    exact ih _ (annUpdate_preserves tasks pid q anns h)

theorem fillAnnsAux_synced (tasks : List Task) :
    ∀ (pids : List Nat) (anns : List Annotation) (pid : Nat), pid ∈ pids →
      AnnSynced tasks pid (fillAnnsAux tasks pids anns).1 := by
  intro pids
  induction pids with
  | nil => intro anns pid h; simp at h
  | cons q pids ih =>
    intro anns pid h
    rw [List.mem_cons] at h
    show AnnSynced tasks pid (fillAnnsAux tasks pids (annUpdate tasks q anns)).1
    rcases h with rfl | h
    · exact fillAnnsAux_preserves tasks pid pids _ (annUpdate_synced tasks pid anns)
    · exact ih _ pid h

theorem fillAnnsAux_noop (tasks : List Task) :
    ∀ (pids : List Nat) (anns : List Annotation),
      (∀ pid ∈ pids, AnnSynced tasks pid anns) →
      fillAnnsAux tasks pids anns = (anns, 0) := by
  intro pids
  induction pids with
  | nil => intro anns _; rfl
  | cons q pids ih =>
    intro anns h
    have hq := h q (List.mem_cons_self q pids)
    have h1 : annUpdate tasks q anns = anns := annUpdate_id tasks q anns hq
    have h2 : annChangedCount tasks q anns = 0 := annChangedCount_zero tasks q anns hq
    rw [fillAnnsAux, h1, h2, ih anns (fun pid hp => h pid (List.mem_cons_of_mem q hp))]
    simp

/-- C3: running the annotation project-reference backfill twice in a
row leaves the database exactly as it was after the first run, and the
second run changes zero rows: after one run every annotation matched by
the per-project filter already carries its task's project reference, so
each re-run writes nothing new. -/
theorem c3_annotation_backfill_idempotent (db : DB) :
    fill_annotations_project (fill_annotations_project db) = fill_annotations_project db
    ∧ annotationsRunUpdatedRows (fill_annotations_project db) = 0 := by
  have hsync : ∀ pid ∈ projectIds db,
      AnnSynced db.tasks pid (fill_annotations_project db).annotations := by
    intro pid hp
    exact fillAnnsAux_synced db.tasks (projectIds db) db.annotations pid hp
  have heq : fillAnnsAux db.tasks (projectIds db) (fill_annotations_project db).annotations
      = ((fill_annotations_project db).annotations, 0) :=
    fillAnnsAux_noop db.tasks (projectIds db) _ hsync
  constructor
  · show ({ fill_annotations_project db with
      annotations := (fillAnnsAux db.tasks (projectIds db)
        (fill_annotations_project db).annotations).1 } : DB)
      = fill_annotations_project db
    rw [heq]
  · show (fillAnnsAux db.tasks (projectIds db) (fill_annotations_project db).annotations).2 = 0
    rw [heq]

theorem predUpdate_matched_inv (tasks : List Task) (pid pid' : Nat) (preds : List Prediction) :
    predMatchedCount tasks pid (predUpdate tasks pid' preds)
      = predMatchedCount tasks pid preds := by
  rw [predMatchedCount, predMatchedCount, predUpdate, List.countP_map]
  apply List.countP_congr
  intro x hx
  cases hc : (taskProjectId tasks x.task_id == some pid') with
  | false => simp [Function.comp, hc]
  | true => simp [Function.comp, hc]

theorem fillPredsAux_spec (tasks : List Task) (mn : String) :
    ∀ (pids : List Nat) (preds : List Prediction),
      (fillPredsAux tasks mn pids preds).1 = predsAfter tasks pids preds
      ∧ (fillPredsAux tasks mn pids preds).2.length = pids.length
      ∧ ∀ (i pid : Nat), pids[i]? = some pid →
          (fillPredsAux tasks mn pids preds).2[i]?
            = some ⟨some pid, mn,
                [(MigrationStatus.started, Option.none),
                 (MigrationStatus.finished,
                  some [("predictions_processed", predMatchedCount tasks pid preds),
                        ("total_project_predictions",
                         predProjectCount pid (predsAfter tasks (pids.take (i + 1)) preds))])]⟩ := by
  intro pids
  induction pids with
  | nil =>
    intro preds
    refine ⟨rfl, rfl, ?_⟩
    intro i pid h
    simp at h
  | cons q pids ih =>
    intro preds
    obtain ⟨ih1, ih2, ih3⟩ := ih (predUpdate tasks q preds)
    refine ⟨?_, ?_, ?_⟩
    · show (fillPredsAux tasks mn pids (predUpdate tasks q preds)).1
        = predsAfter tasks (q :: pids) preds
      rw [ih1]
      rfl
    · show (fillPredsAux tasks mn pids (predUpdate tasks q preds)).2.length + 1
        = (q :: pids).length
      rw [ih2]
      rfl
    · intro i pid h
      have hcons : (fillPredsAux tasks mn (q :: pids) preds).2
          = (⟨some q, mn,
              [(MigrationStatus.started, Option.none),
               (MigrationStatus.finished,
                some [("predictions_processed", predMatchedCount tasks q preds),
                      ("total_project_predictions",
                       predProjectCount q (predUpdate tasks q preds))])]⟩ : RecordHistory)
            :: (fillPredsAux tasks mn pids (predUpdate tasks q preds)).2 := rfl
      cases i with
      | zero =>
        rw [List.getElem?_cons_zero] at h
        injection h with h
        subst h
        rw [hcons, List.getElem?_cons_zero]
        rfl
      | succ i =>
        rw [List.getElem?_cons_succ] at h
        rw [hcons, List.getElem?_cons_succ, ih3 i pid h, predUpdate_matched_inv]
        rfl

/-- C9: the prediction backfill is submitted exactly once as a single
unit of work carrying the run name; inside that unit it visits every
project id in order and, per project, creates a STARTED ledger record,
performs the one bulk update, and finishes the record with metadata
holding the bulk update's row count as processed (the rows matched by
the task-project filter, an invariant of the run) and the
at-that-moment count of predictions referencing the project as total. -/
theorem c9_prediction_backfill (db : DB) (mn : String) :
    (fill_predictions_project_submissions mn).length = 1
    ∧ fill_predictions_project_submissions mn
        = [⟨Job.fillPredictions mn, Option.none, Option.none⟩]
    ∧ (_fill_predictions_project db mn).2.length = (projectIds db).length
    ∧ (_fill_predictions_project db mn).1 = predsAfter db.tasks (projectIds db) db.predictions
    ∧ ∀ (i pid : Nat), (projectIds db)[i]? = some pid →
        (_fill_predictions_project db mn).2[i]?
          = some ⟨some pid, mn,
              [(MigrationStatus.started, Option.none),
               (MigrationStatus.finished,
                some [("predictions_processed", predMatchedCount db.tasks pid db.predictions),
                      ("total_project_predictions",
                       predProjectCount pid
                         (predsAfter db.tasks ((projectIds db).take (i + 1)) db.predictions))])]⟩ := by
  obtain ⟨h1, h2, h3⟩ := fillPredsAux_spec db.tasks mn (projectIds db) db.predictions
  exact ⟨rfl, rfl, h2, h1, h3⟩

end LabelStudio
